import Mathlib

/-!
Verification of the loan amortization and rate-period subsystem of the
Telegram mini-app repository.

The JavaScript sources are shallowly embedded: JS numbers are modelled as
exact rationals (`ℚ`), loop counters as naturals, thrown `Error` values as
`Except String` carrying the exact message string of the `throw` site, and
date strings as Lean `String`s processed by a parser that mirrors the
`^\d{4}-\d{2}-\d{2}$` regex of the source.
-/

namespace Vapex

/-- Result record of `calculateLoanMetrics` (src/unnamed/part_000:1188-1232).
`monthly_payment` is `null` in the differentiated branch, hence `Option ℚ`. -/
structure LoanMetrics where
  monthly_payment : Option ℚ
  first_payment : ℚ
  last_payment : ℚ
  total_payment : ℚ
  overpayment : ℚ
  deriving Repr, DecidableEq

/-- Loop state of the differentiated-payment `for` loop in
`calculateLoanMetrics`: `total`, `first`, `last` accumulators and the
declining balance `remain`. -/
structure DiffState where
  total : ℚ
  first : ℚ
  last : ℚ
  remain : ℚ
  deriving Repr, DecidableEq

/-- One iteration of the differentiated loop at counter value `m`
(src/unnamed/part_000:1202-1208): `pay = principalPart + remain*i`,
update `first` at `m = 1`, `last` at `m = termMonths`, add `pay` to the
total, and decrease `remain` by `principalPart` floored at 0. -/
def diffStep (principalPart i : ℚ) (termMonths : ℕ) (st : DiffState) (m : ℕ) :
    DiffState :=
  let pay := principalPart + st.remain * i
  { total := st.total + pay
    first := if m = 1 then pay else st.first
    last := if m = termMonths then pay else st.last
    remain := max 0 (st.remain - principalPart) }

/-- The whole differentiated loop `for (m = 1; m <= termMonths; m += 1)`,
started from `total = first = last = 0`, `remain = principal`. -/
def diffFold (principal principalPart i : ℚ) (termMonths : ℕ) : DiffState :=
  (List.range' 1 termMonths).foldl (diffStep principalPart i termMonths)
    ⟨0, 0, 0, principal⟩

/-- `calculateLoanMetrics` (src/unnamed/part_000:1188-1232, duplicated at
src/unnamed/part_002:2660).  `amount` and `annualRate` are JS numbers
(modelled as `ℚ`); `months` is the integer term (the UI always passes an
integer, modelled as `ℕ`); `paymentType` is the raw string compared with
`"diff"`.  The three validation `throw`s become `Except.error` with the
exact message. -/
def calculateLoanMetrics (amount annualRate : ℚ) (months : ℕ)
    (paymentType : String) : Except String LoanMetrics :=
  if amount ≤ 0 then .error "Сумма кредита должна быть больше 0"
  else if annualRate < 0 then .error "Ставка должна быть числом от 0"
  else if months ≤ 0 then .error "Срок должен быть больше 0"
  else
    let i : ℚ := annualRate / 100 / 12
    if paymentType = "diff" then
      let principalPart := amount / months
      let st := diffFold amount principalPart i months
      .ok { monthly_payment := none
            first_payment := st.first
            last_payment := st.last
            total_payment := st.total
            overpayment := st.total - amount }
    else
      let monthly : ℚ :=
        if i = 0 then amount / months
        else amount * i * (1 + i) ^ months / ((1 + i) ^ months - 1)
      let total := monthly * months
      .ok { monthly_payment := some monthly
            first_payment := monthly
            last_payment := monthly
            total_payment := total
            overpayment := total - amount }

/-- The remaining-balance sequence described by the spec for DIFFERENTIATED
loans: starts at the principal and decreases by `principal_part` each
period, floored at 0. -/
def remainSeq (P pp : ℚ) : ℕ → ℚ
  | 0 => P
  | k + 1 => max 0 (remainSeq P pp k - pp)

/-- The spec's DIFFERENTIATED payment in period `m` (1-based):
`principal_part + remaining_balance * i`, the balance being the one left
after `m - 1` earlier periods. -/
def paySeq (P pp i : ℚ) (m : ℕ) : ℚ := pp + remainSeq P pp (m - 1) * i

lemma range'_foldl_diffStep (P pp i : ℚ) (N : ℕ) : ∀ k : ℕ,
    ((List.range' 1 k).foldl (diffStep pp i N) ⟨0, 0, 0, P⟩).total =
        ∑ m ∈ Finset.range k, paySeq P pp i (m + 1) ∧
    ((List.range' 1 k).foldl (diffStep pp i N) ⟨0, 0, 0, P⟩).remain =
        remainSeq P pp k ∧
    ((List.range' 1 k).foldl (diffStep pp i N) ⟨0, 0, 0, P⟩).first =
        (if 1 ≤ k then paySeq P pp i 1 else 0) ∧
    ((List.range' 1 k).foldl (diffStep pp i N) ⟨0, 0, 0, P⟩).last =
        (if 1 ≤ N ∧ N ≤ k then paySeq P pp i N else 0) := by
  intro k
  induction k with
  | zero =>
      refine ⟨by simp, by simp [remainSeq], by simp, ?_⟩
      simp only [List.range', List.foldl_nil]
      rw [if_neg (by omega)]
  | succ k ih =>
      obtain ⟨ht, hr, hf, hl⟩ := ih
      have hcat : List.range' 1 (k + 1) = List.range' 1 k ++ [1 + 1 * k] :=
        List.range'_concat 1 k
      rw [hcat, List.foldl_append]
      have hpay : pp + remainSeq P pp k * i = paySeq P pp i (k + 1) := by
        simp [paySeq]
      refine ⟨?_, ?_, ?_, ?_⟩
      · simp only [List.foldl_cons, List.foldl_nil, diffStep, ht, hr,
          Finset.sum_range_succ, hpay]
      · simp only [List.foldl_cons, List.foldl_nil, diffStep, hr, remainSeq]
      · simp only [List.foldl_cons, List.foldl_nil, diffStep, hf, hr]
        by_cases h1 : 1 + 1 * k = 1
        · have hk : k = 0 := by omega
          subst hk
          rw [if_pos h1, if_pos (by omega : 1 ≤ 0 + 1), hpay]
        · have hk : 1 ≤ k := by omega
          rw [if_neg h1, if_pos hk, if_pos (by omega : 1 ≤ k + 1)]
      · simp only [List.foldl_cons, List.foldl_nil, diffStep, hl, hr]
        by_cases hN : 1 + 1 * k = N
        · rw [if_pos hN, if_pos (by omega : 1 ≤ N ∧ N ≤ k + 1), ← hN, hpay]
          congr 1
          omega
        · have hiff : (1 ≤ N ∧ N ≤ k) ↔ (1 ≤ N ∧ N ≤ k + 1) := by omega
          rw [if_neg hN, if_congr hiff rfl rfl]

/-- `diffFold` computes exactly the spec's first/last/total figures. -/
lemma diffFold_spec (P pp i : ℚ) (N : ℕ) (hN : 0 < N) :
    (diffFold P pp i N).total = ∑ m ∈ Finset.range N, paySeq P pp i (m + 1) ∧
    (diffFold P pp i N).first = paySeq P pp i 1 ∧
    (diffFold P pp i N).last = paySeq P pp i N := by
  obtain ⟨ht, hr, hf, hl⟩ := range'_foldl_diffStep P pp i N N
  refine ⟨ht, ?_, ?_⟩
  · rw [diffFold, hf, if_pos (by omega : 1 ≤ N)]
  · rw [diffFold, hl, if_pos ⟨by omega, le_refl N⟩]

/-! Arithmetic toolkit for comparing the two overpayment figures. -/

lemma sum_mul_pred (q : ℚ) : ∀ n : ℕ,
    (q - 1) * (∑ t ∈ Finset.range n, ((t : ℚ) + 1) * q ^ t) =
      n * q ^ n - ∑ t ∈ Finset.range n, q ^ t := by
  intro n
  induction n with
  | zero => simp
  | succ n ih =>
      rw [Finset.sum_range_succ, Finset.sum_range_succ]
      push_cast
      linear_combination ih

lemma T_eq (q : ℚ) (n : ℕ) :
    (∑ t ∈ Finset.range n, (2 * (t : ℚ) + 1 - n) * q ^ t) =
      2 * (∑ t ∈ Finset.range n, ((t : ℚ) + 1) * q ^ t) -
        ((n : ℚ) + 1) * ∑ t ∈ Finset.range n, q ^ t := by
  rw [Finset.mul_sum, Finset.mul_sum, ← Finset.sum_sub_distrib]
  exact Finset.sum_congr rfl fun t _ => by ring

lemma num_id (P q : ℚ) (n : ℕ) :
    2 * n * (P * (q - 1) * q ^ n) -
        (2 * P + (q - 1) * P * ((n : ℚ) + 1)) * (q ^ n - 1) =
      P * (q - 1) ^ 2 * ∑ t ∈ Finset.range n, (2 * (t : ℚ) + 1 - n) * q ^ t := by
  have hS := geom_sum_mul q n
  have hU := sum_mul_pred q n
  have hT := T_eq q n
  linear_combination (2 * P + (q - 1) * P * ((n : ℚ) + 1)) * hS -
    2 * P * (q - 1) * hU - P * (q - 1) ^ 2 * hT

/-- The annuity overpayment minus the differentiated overpayment, as a single
fraction with positive denominator. -/
lemma ann_minus_diff (P q : ℚ) (n : ℕ) (hD : q ^ n - 1 ≠ 0) :
    (P * (q - 1) * q ^ n / (q ^ n - 1)) * n - P - (q - 1) * P * ((n : ℚ) + 1) / 2 =
      P * (q - 1) ^ 2 * (∑ t ∈ Finset.range n, (2 * (t : ℚ) + 1 - n) * q ^ t) /
        (2 * (q ^ n - 1)) := by
  have expand : (P * (q - 1) * q ^ n / (q ^ n - 1)) * n - P -
      (q - 1) * P * ((n : ℚ) + 1) / 2 =
      (2 * n * (P * (q - 1) * q ^ n) -
        (2 * P + (q - 1) * P * ((n : ℚ) + 1)) * (q ^ n - 1)) / (2 * (q ^ n - 1)) := by
    field_simp
    ring
  rw [expand, num_id]

/-- The symmetric-coefficient sum `Σ (2t+1−n)·qᵗ` is nonnegative for `q ≥ 1`:
pairing `t` with `n−1−t` makes every paired term a product of two factors of
equal sign. -/
lemma T_nonneg (q : ℚ) (hq : 1 ≤ q) (n : ℕ) :
    0 ≤ ∑ t ∈ Finset.range n, (2 * (t : ℚ) + 1 - n) * q ^ t := by
  have hrefl := Finset.sum_range_reflect
    (fun t => (2 * (t : ℚ) + 1 - n) * q ^ t) n
  have h2 : 0 ≤ 2 * ∑ t ∈ Finset.range n, (2 * (t : ℚ) + 1 - n) * q ^ t := by
    have hsplit : 2 * ∑ t ∈ Finset.range n, (2 * (t : ℚ) + 1 - n) * q ^ t =
        ∑ t ∈ Finset.range n, ((2 * (t : ℚ) + 1 - n) * q ^ t +
          (2 * ((n - 1 - t : ℕ) : ℚ) + 1 - n) * q ^ (n - 1 - t)) := by
      rw [Finset.sum_add_distrib, hrefl]
      ring
    rw [hsplit]
    apply Finset.sum_nonneg
    intro t ht
    have htn : t < n := Finset.mem_range.1 ht
    have hcast : ((n - 1 - t : ℕ) : ℚ) = (n : ℚ) - 1 - t := by
      rw [Nat.sub_sub, Nat.cast_sub (by omega : 1 + t ≤ n)]
      push_cast
      ring
    have hterm : (2 * (t : ℚ) + 1 - n) * q ^ t +
        (2 * ((n - 1 - t : ℕ) : ℚ) + 1 - n) * q ^ (n - 1 - t) =
        (2 * (t : ℚ) + 1 - n) * (q ^ t - q ^ (n - 1 - t)) := by
      rw [hcast]
      ring
    rw [hterm]
    rcases le_or_lt n (2 * t + 1) with hcase | hcase
    · have hexp : n - 1 - t ≤ t := by omega
      have hpow := pow_le_pow_right₀ hq hexp
      have ha : 0 ≤ 2 * (t : ℚ) + 1 - n := by
        have : (n : ℚ) ≤ 2 * t + 1 := by exact_mod_cast hcase
        linarith
      exact mul_nonneg ha (sub_nonneg.2 hpow)
    · have hexp : t ≤ n - 1 - t := by omega
      have hpow := pow_le_pow_right₀ hq hexp
      have ha : 2 * (t : ℚ) + 1 - n ≤ 0 := by
        have : (2 * t + 1 : ℚ) < n := by exact_mod_cast hcase
        linarith
      have heq : (2 * (t : ℚ) + 1 - n) * (q ^ t - q ^ (n - 1 - t)) =
          (-(2 * (t : ℚ) + 1 - n)) * (q ^ (n - 1 - t) - q ^ t) := by
        ring
      rw [heq]
      exact mul_nonneg (neg_nonneg.2 ha) (sub_nonneg.2 hpow)
  linarith

lemma sum_range_cast (n : ℕ) :
    (∑ m ∈ Finset.range n, (m : ℚ)) = n * (n - 1) / 2 := by
  induction n with
  | zero => simp
  | succ n ih =>
      rw [Finset.sum_range_succ, ih]
      push_cast
      ring

/-- Closed form of the declining balance when `principal_part = P/n`:
after `k ≤ n` periods it is `P·(n−k)/n`, and the floor at 0 never bites. -/
lemma remainSeq_closed (P : ℚ) (hP : 0 ≤ P) (n : ℕ) (hn : 0 < n) :
    ∀ k, k ≤ n → remainSeq P (P / n) k = P * ((n : ℚ) - k) / n := by
  have hn0 : (n : ℚ) ≠ 0 := Nat.cast_ne_zero.2 (by omega)
  intro k
  induction k with
  | zero =>
      intro _
      rw [remainSeq]
      push_cast
      field_simp
  | succ k ih =>
      intro hk
      have hkn : k ≤ n := by omega
      rw [remainSeq, ih hkn]
      have harg : P * ((n : ℚ) - k) / n - P / n = P * ((n : ℚ) - (k + 1)) / n := by
        field_simp
        ring
      rw [harg]
      have hnonneg : 0 ≤ P * ((n : ℚ) - (k + 1)) / n := by
        apply div_nonneg _ (by positivity)
        apply mul_nonneg hP
        have : ((k : ℚ) + 1) ≤ n := by exact_mod_cast hk
        linarith
      push_cast
      exact max_eq_right hnonneg

/-- Total of the differentiated payments: `P + i·P·(n+1)/2`. -/
lemma diff_total (P : ℚ) (hP : 0 ≤ P) (n : ℕ) (hn : 0 < n) (i : ℚ) :
    ∑ m ∈ Finset.range n, paySeq P (P / n) i (m + 1) =
      P + i * P * ((n : ℚ) + 1) / 2 := by
  have hn0 : (n : ℚ) ≠ 0 := Nat.cast_ne_zero.2 (by omega)
  have hstep : ∀ m ∈ Finset.range n, paySeq P (P / n) i (m + 1) =
      P / n + i * (P / n) * ((n : ℚ) - m) := by
    intro m hm
    have hmn : m ≤ n := le_of_lt (Finset.mem_range.1 hm)
    rw [paySeq, Nat.add_sub_cancel, remainSeq_closed P hP n hn m hmn]
    ring
  rw [Finset.sum_congr rfl hstep, Finset.sum_add_distrib, Finset.sum_const,
    Finset.card_range, nsmul_eq_mul]
  have hsum : ∑ m ∈ Finset.range n, i * (P / n) * ((n : ℚ) - m) =
      i * (P / n) * ((n : ℚ) * n - n * ((n : ℚ) - 1) / 2) := by
    rw [← Finset.mul_sum, Finset.sum_sub_distrib, Finset.sum_const,
      Finset.card_range, nsmul_eq_mul, sum_range_cast]
  rw [hsum]
  field_simp
  ring

/-- Evaluating `calculateLoanMetrics` past its validation guards, `"diff"`
branch. -/
lemma calc_diff (P r : ℚ) (n : ℕ) (hP : 0 < P) (hr : 0 ≤ r) (hn : 0 < n) :
    calculateLoanMetrics P r n "diff" =
      .ok { monthly_payment := none
            first_payment := (diffFold P (P / n) (r / 100 / 12) n).first
            last_payment := (diffFold P (P / n) (r / 100 / 12) n).last
            total_payment := (diffFold P (P / n) (r / 100 / 12) n).total
            overpayment := (diffFold P (P / n) (r / 100 / 12) n).total - P } := by
  simp only [calculateLoanMetrics]
  rw [if_neg (not_le.2 hP), if_neg (not_lt.2 hr), if_neg (by omega : ¬ n ≤ 0),
    if_pos trivial]

/-- Evaluating `calculateLoanMetrics` past its validation guards, annuity
branch (any payment type other than `"diff"`). -/
lemma calc_ann (P r : ℚ) (n : ℕ) (hP : 0 < P) (hr : 0 ≤ r) (hn : 0 < n)
    (pt : String) (hpt : pt ≠ "diff") :
    calculateLoanMetrics P r n pt =
      .ok { monthly_payment := some (if r / 100 / 12 = 0 then P / n
              else P * (r / 100 / 12) * (1 + r / 100 / 12) ^ n /
                ((1 + r / 100 / 12) ^ n - 1))
            first_payment := (if r / 100 / 12 = 0 then P / n
              else P * (r / 100 / 12) * (1 + r / 100 / 12) ^ n /
                ((1 + r / 100 / 12) ^ n - 1))
            last_payment := (if r / 100 / 12 = 0 then P / n
              else P * (r / 100 / 12) * (1 + r / 100 / 12) ^ n /
                ((1 + r / 100 / 12) ^ n - 1))
            total_payment := (if r / 100 / 12 = 0 then P / n
              else P * (r / 100 / 12) * (1 + r / 100 / 12) ^ n /
                ((1 + r / 100 / 12) ^ n - 1)) * n
            overpayment := (if r / 100 / 12 = 0 then P / n
              else P * (r / 100 / 12) * (1 + r / 100 / 12) ^ n /
                ((1 + r / 100 / 12) ^ n - 1)) * n - P } := by
  simp only [calculateLoanMetrics]
  rw [if_neg (not_le.2 hP), if_neg (not_lt.2 hr), if_neg (by omega : ¬ n ≤ 0),
    if_neg hpt]

/-- C2: with payment type DIFFERENTIATED, `calculateLoanMetrics` uses the
fixed `principal_part = P/n`; the period-`m` payment is
`principal_part + remaining_balance·i` with the balance starting at `P`,
decreasing by `principal_part` each period and floored at 0 (`paySeq` /
`remainSeq`); it reports the period-1 payment as `first_payment`, the
period-`n` payment as `last_payment`, the sum of all `n` payments as
`total_payment`, and `overpayment = total_payment - P`. -/
theorem differentiated_payments_follow_spec (P r : ℚ) (n : ℕ)
    (hP : 0 < P) (hr : 0 ≤ r) (hn : 0 < n) (md : LoanMetrics)
    (hmd : calculateLoanMetrics P r n "diff" = .ok md) :
    md.first_payment = paySeq P (P / n) (r / 100 / 12) 1 ∧
    md.last_payment = paySeq P (P / n) (r / 100 / 12) n ∧
    md.total_payment =
      ∑ m ∈ Finset.range n, paySeq P (P / n) (r / 100 / 12) (m + 1) ∧
    md.overpayment = md.total_payment - P := by
  rw [calc_diff P r n hP hr hn] at hmd
  obtain ⟨ht, hf, hl⟩ := diffFold_spec P (P / n) (r / 100 / 12) n hn
  cases hmd
  exact ⟨hf, hl, ht, rfl⟩

/-- Witness for `differentiated_payments_follow_spec` at the spec's own
example input `P = 1,200,000`, `r = 12`, `n = 12`. -/
theorem differentiated_payments_follow_spec_witness :
    ((⟨none, 112000, 101000, 1278000, 78000⟩ : LoanMetrics).first_payment =
        paySeq 1200000 ((1200000 : ℚ) / ((12 : ℕ) : ℚ)) ((12 : ℚ) / 100 / 12) 1) ∧
    ((⟨none, 112000, 101000, 1278000, 78000⟩ : LoanMetrics).last_payment =
        paySeq 1200000 ((1200000 : ℚ) / ((12 : ℕ) : ℚ)) ((12 : ℚ) / 100 / 12) 12) ∧
    ((⟨none, 112000, 101000, 1278000, 78000⟩ : LoanMetrics).total_payment =
        ∑ m ∈ Finset.range 12,
          paySeq 1200000 ((1200000 : ℚ) / ((12 : ℕ) : ℚ)) ((12 : ℚ) / 100 / 12) (m + 1)) ∧
    ((⟨none, 112000, 101000, 1278000, 78000⟩ : LoanMetrics).overpayment =
        (⟨none, 112000, 101000, 1278000, 78000⟩ : LoanMetrics).total_payment - 1200000) :=
  differentiated_payments_follow_spec 1200000 12 12 (by norm_num) (by norm_num)
    (by norm_num) ⟨none, 112000, 101000, 1278000, 78000⟩
    (by norm_num [calculateLoanMetrics, diffFold, diffStep, List.range'])

/-- C5: on identical valid inputs, the overpayment `calculateLoanMetrics`
returns for the DIFFERENTIATED payment type is at most the overpayment it
returns for the ANNUITY payment type. -/
theorem diff_overpayment_le_annuity (P r : ℚ) (n : ℕ)
    (hP : 0 < P) (hr : 0 ≤ r) (hn : 0 < n) (md ma : LoanMetrics)
    (hd : calculateLoanMetrics P r n "diff" = .ok md)
    (ha : calculateLoanMetrics P r n "annuity" = .ok ma) :
    md.overpayment ≤ ma.overpayment := by
  rw [calc_diff P r n hP hr hn] at hd
  rw [calc_ann P r n hP hr hn "annuity" (by decide)] at ha
  obtain ⟨ht, hf, hl⟩ := diffFold_spec P (P / n) (r / 100 / 12) n hn
  cases hd
  cases ha
  show (diffFold P (P / n) (r / 100 / 12) n).total - P ≤
    (if r / 100 / 12 = 0 then P / n
      else P * (r / 100 / 12) * (1 + r / 100 / 12) ^ n /
        ((1 + r / 100 / 12) ^ n - 1)) * n - P
  have hn0 : (n : ℚ) ≠ 0 := Nat.cast_ne_zero.2 (by omega)
  have hio : 0 ≤ r / 100 / 12 := by positivity
  have hdover : (diffFold P (P / n) (r / 100 / 12) n).total - P =
      r / 100 / 12 * P * ((n : ℚ) + 1) / 2 := by
    rw [ht, diff_total P (le_of_lt hP) n hn]
    ring
  rw [hdover]
  rcases eq_or_lt_of_le hio with hiz | hipos
  · rw [if_pos hiz.symm, div_mul_cancel₀ P hn0, ← hiz]
    simp
  · rw [if_neg (ne_of_gt hipos)]
    have h1q : (1 : ℚ) < 1 + r / 100 / 12 := by linarith
    have hqn : 1 < (1 + r / 100 / 12) ^ n := one_lt_pow₀ h1q (by omega)
    have hD : (1 + r / 100 / 12) ^ n - 1 ≠ 0 := ne_of_gt (by linarith)
    have key := ann_minus_diff P (1 + r / 100 / 12) n hD
    rw [show (1 : ℚ) + r / 100 / 12 - 1 = r / 100 / 12 from by ring] at key
    have hTpos := T_nonneg (1 + r / 100 / 12) (by linarith) n
    have hfrac : 0 ≤ P * (r / 100 / 12) ^ 2 *
        (∑ t ∈ Finset.range n, (2 * (t : ℚ) + 1 - n) * (1 + r / 100 / 12) ^ t) /
        (2 * ((1 + r / 100 / 12) ^ n - 1)) := by
      apply div_nonneg _ (by linarith)
      exact mul_nonneg (mul_nonneg (le_of_lt hP) (sq_nonneg _)) hTpos
    linarith [key, hfrac]

/-- Witness for `diff_overpayment_le_annuity` at `P = 1,200,000`, `r = 12`,
`n = 12`: overpayment 78,000 (differentiated) versus ≈79,422.56 (annuity). -/
theorem diff_overpayment_le_annuity_witness :
    (⟨none, 112000, 101000, 1278000, 78000⟩ : LoanMetrics).overpayment ≤
      (⟨some (4507300120527878882644804000 / 42275010043989906887067),
        4507300120527878882644804000 / 42275010043989906887067,
        4507300120527878882644804000 / 42275010043989906887067,
        18029200482111515530579216000 / 14091670014663302295689,
        1119196464515552775752416000 / 14091670014663302295689⟩ : LoanMetrics).overpayment :=
  diff_overpayment_le_annuity 1200000 12 12 (by norm_num) (by norm_num) (by norm_num)
    ⟨none, 112000, 101000, 1278000, 78000⟩
    ⟨some (4507300120527878882644804000 / 42275010043989906887067),
      4507300120527878882644804000 / 42275010043989906887067,
      4507300120527878882644804000 / 42275010043989906887067,
      18029200482111515530579216000 / 14091670014663302295689,
      1119196464515552775752416000 / 14091670014663302295689⟩
    (by norm_num [calculateLoanMetrics, diffFold, diffStep, List.range'])
    (by norm_num [calculateLoanMetrics]; decide)

/-- C8: `calculateLoanMetrics` fails with a distinctly named validation
error in exactly these cases — `principal ≤ 0`, then `rate < 0`, then
`term ≤ 0` — and raises no error once `principal > 0`, `rate ≥ 0` and
`term > 0`. -/
theorem loan_metrics_validation (P r : ℚ) (n : ℕ) (pt : String) :
    (P ≤ 0 → calculateLoanMetrics P r n pt =
      .error "Сумма кредита должна быть больше 0") ∧
    (0 < P → r < 0 → calculateLoanMetrics P r n pt =
      .error "Ставка должна быть числом от 0") ∧
    (0 < P → 0 ≤ r → n = 0 → calculateLoanMetrics P r n pt =
      .error "Срок должен быть больше 0") ∧
    (0 < P → 0 ≤ r → 0 < n → ∃ m, calculateLoanMetrics P r n pt = .ok m) ∧
    ("Сумма кредита должна быть больше 0" ≠ "Ставка должна быть числом от 0") ∧
    ("Ставка должна быть числом от 0" ≠ "Срок должен быть больше 0") ∧
    ("Сумма кредита должна быть больше 0" ≠ "Срок должен быть больше 0") := by
  refine ⟨?_, ?_, ?_, ?_, by decide, by decide, by decide⟩
  · intro h
    simp only [calculateLoanMetrics]
    rw [if_pos h]
  · intro hP hr
    simp only [calculateLoanMetrics]
    rw [if_neg (not_le.2 hP), if_pos hr]
  · intro hP hr hn
    simp only [calculateLoanMetrics]
    rw [if_neg (not_le.2 hP), if_neg (not_lt.2 hr), if_pos (by omega : n ≤ 0)]
  · intro hP hr hn
    by_cases hpt : pt = "diff"
    · subst hpt
      exact ⟨_, calc_diff P r n hP hr hn⟩
    · exact ⟨_, calc_ann P r n hP hr hn pt hpt⟩

/-- Witness for `loan_metrics_validation`: each of the three rejections and
one acceptance, at concrete inputs. -/
theorem loan_metrics_validation_witness :
    calculateLoanMetrics (-5) 10 12 "annuity" =
      .error "Сумма кредита должна быть больше 0" ∧
    calculateLoanMetrics 100 (-1) 12 "annuity" =
      .error "Ставка должна быть числом от 0" ∧
    calculateLoanMetrics 100 10 0 "annuity" =
      .error "Срок должен быть больше 0" ∧
    ∃ m, calculateLoanMetrics 100 0 4 "annuity" = .ok m :=
  ⟨(loan_metrics_validation (-5) 10 12 "annuity").1 (by norm_num),
   (loan_metrics_validation 100 (-1) 12 "annuity").2.1 (by norm_num) (by norm_num),
   (loan_metrics_validation 100 10 0 "annuity").2.2.1 (by norm_num) (by norm_num) rfl,
   (loan_metrics_validation 100 0 4 "annuity").2.2.2.1 (by norm_num) (by norm_num)
     (by norm_num)⟩

/-- C1 (amended): with payment type ANNUITY, `calculateLoanMetrics` returns
`monthly_payment = P/n` when the monthly rate `i = r/100/12` is 0 and
otherwise `P·i·(1+i)^n / ((1+i)^n − 1)`, with
`total_payment = monthly_payment · n` and
`overpayment = total_payment − P`; at `P = 1,200,000`, `r = 12`, `n = 12`
the payment is ≈106,618.55, the total ≈1,279,422.56 and the overpayment
≈79,422.56 (each within 0.01). -/
theorem annuity_formula_and_example :
    (∀ (P r : ℚ) (n : ℕ), 0 < P → 0 ≤ r → 0 < n → ∀ ma : LoanMetrics,
        calculateLoanMetrics P r n "annuity" = .ok ma →
        ∃ M, ma.monthly_payment = some M ∧
          M = (if r / 100 / 12 = 0 then P / n
            else P * (r / 100 / 12) * (1 + r / 100 / 12) ^ n /
              ((1 + r / 100 / 12) ^ n - 1)) ∧
          ma.total_payment = M * n ∧
          ma.overpayment = ma.total_payment - P) ∧
    calculateLoanMetrics 1200000 12 12 "annuity" =
      .ok ⟨some (4507300120527878882644804000 / 42275010043989906887067),
        4507300120527878882644804000 / 42275010043989906887067,
        4507300120527878882644804000 / 42275010043989906887067,
        18029200482111515530579216000 / 14091670014663302295689,
        1119196464515552775752416000 / 14091670014663302295689⟩ ∧
    |(4507300120527878882644804000 : ℚ) / 42275010043989906887067 -
      106618.55| < 0.01 ∧
    |(18029200482111515530579216000 : ℚ) / 14091670014663302295689 -
      1279422.56| < 0.01 ∧
    |(1119196464515552775752416000 : ℚ) / 14091670014663302295689 -
      79422.56| < 0.01 := by
  refine ⟨?_, ?_, ?_, ?_, ?_⟩
  · intro P r n hP hr hn ma hma
    rw [calc_ann P r n hP hr hn "annuity" (by decide)] at hma
    cases hma
    exact ⟨_, rfl, rfl, rfl, rfl⟩
  · norm_num [calculateLoanMetrics]
    decide
  · rw [abs_sub_lt_iff]
    constructor <;> norm_num
  · rw [abs_sub_lt_iff]
    constructor <;> norm_num
  · rw [abs_sub_lt_iff]
    constructor <;> norm_num

/-- Witness for `annuity_formula_and_example` at `P = 100`, `r = 0`, `n = 4`
(zero monthly rate, so the payment is `P/n = 25`). -/
theorem annuity_formula_and_example_witness :
    ∃ M, (⟨some 25, 25, 25, 100, 0⟩ : LoanMetrics).monthly_payment = some M ∧
      M = (if (0 : ℚ) / 100 / 12 = 0 then (100 : ℚ) / ((4 : ℕ) : ℚ)
        else 100 * ((0 : ℚ) / 100 / 12) * (1 + (0 : ℚ) / 100 / 12) ^ (4 : ℕ) /
          ((1 + (0 : ℚ) / 100 / 12) ^ (4 : ℕ) - 1)) ∧
      (⟨some 25, 25, 25, 100, 0⟩ : LoanMetrics).total_payment = M * ((4 : ℕ) : ℚ) ∧
      (⟨some 25, 25, 25, 100, 0⟩ : LoanMetrics).overpayment =
        (⟨some 25, 25, 25, 100, 0⟩ : LoanMetrics).total_payment - 100 :=
  annuity_formula_and_example.1 100 0 4 (by norm_num) (by norm_num) (by norm_num)
    ⟨some 25, 25, 25, 100, 0⟩ (by norm_num [calculateLoanMetrics]; decide)

/-- C1 as stated is false at its own example: the annuity payment for
`P = 1,200,000`, `r = 12%`, `n = 12` exceeds the claimed ≈106,585.84 by
more than 32, the total exceeds the claimed ≈1,279,030 by more than 392,
and the overpayment exceeds the claimed ≈79,030 by more than 392. -/
theorem annuity_example_figures_refuted :
    calculateLoanMetrics 1200000 12 12 "annuity" =
      .ok ⟨some (4507300120527878882644804000 / 42275010043989906887067),
        4507300120527878882644804000 / 42275010043989906887067,
        4507300120527878882644804000 / 42275010043989906887067,
        18029200482111515530579216000 / 14091670014663302295689,
        1119196464515552775752416000 / 14091670014663302295689⟩ ∧
    106585.84 + 32 <
      (4507300120527878882644804000 : ℚ) / 42275010043989906887067 ∧
    1279030 + 392 <
      (18029200482111515530579216000 : ℚ) / 14091670014663302295689 ∧
    79030 + 392 <
      (1119196464515552775752416000 : ℚ) / 14091670014663302295689 := by
  refine ⟨?_, by norm_num, by norm_num, by norm_num⟩
  norm_num [calculateLoanMetrics]
  decide

/-! ## Date arithmetic (src/unnamed/part_002:442-472)

JS strings are Lean `String`s, but all character work happens on `.data`
so that everything stays kernel-computable.  JS `Date` is modelled inside
its valid range (±275,760 years — every date handled in this file is far
inside it), including the `Date.UTC` quirk that maps a year argument in
`[0, 99]` to `1900 + year`. -/

/-- `String.prototype.trim` on the character list (strips the ASCII
whitespace forms that can occur in the app's inputs). -/
def trimChars (l : List Char) : List Char :=
  ((l.dropWhile Char.isWhitespace).reverse.dropWhile Char.isWhitespace).reverse

/-- Numeric value of a decimal digit character. -/
def digitVal (c : Char) : ℤ := (c.toNat : ℤ) - ('0'.toNat : ℤ)

/-- The `^\d{4}-\d{2}-\d{2}$` regex test plus
`text.split("-").map(Number)`, on the character list: four year digits,
two month digits, two day digits. -/
def parseChars : List Char → Option (ℤ × ℤ × ℤ)
  | [y1, y2, y3, y4, h1, m1, m2, h2, d1, d2] =>
      if y1.isDigit && y2.isDigit && y3.isDigit && y4.isDigit &&
         h1 == '-' && m1.isDigit && m2.isDigit && h2 == '-' &&
         d1.isDigit && d2.isDigit then
        some (((digitVal y1 * 10 + digitVal y2) * 10 + digitVal y3) * 10 + digitVal y4,
          digitVal m1 * 10 + digitVal m2,
          digitVal d1 * 10 + digitVal d2)
      else none
  | _ => none

/-- `String(ymd || "").trim()` followed by the regex test and the split
into year, month and day numbers. -/
def parseYmd (s : String) : Option (ℤ × ℤ × ℤ) := parseChars (trimChars s.data)

/-- Proleptic Gregorian leap-year rule, as JS `Date` uses. -/
def isLeap (y : ℤ) : Bool := y % 4 == 0 && (y % 100 != 0 || y % 400 == 0)

/-- Length of month `m` (1-indexed) of year `y`;
`new Date(Date.UTC(y, m, 0)).getUTCDate()` in the source. -/
def daysInMonth (y m : ℤ) : ℤ :=
  if m = 2 then (if isLeap y then 29 else 28)
  else if m = 4 ∨ m = 6 ∨ m = 9 ∨ m = 11 then 30
  else 31

/-- The `Date.UTC` year argument quirk: `0 ≤ y ≤ 99` means `1900 + y`. -/
def jsUtcYear (y : ℤ) : ℤ := if 0 ≤ y ∧ y ≤ 99 then 1900 + y else y

/-- Roll an overflowing day-of-month forward through the months, as JS
`Date` normalisation does.  `fuel` bounds the walk; every caller passes
enough (each step consumes at least 28 days). -/
def rollF : ℕ → ℤ → ℤ → ℤ → ℤ × ℤ × ℤ
  | 0, y, m, d => (y, m, d)
  | fuel + 1, y, m, d =>
      if daysInMonth y m < d then
        rollF fuel (if m = 12 then y + 1 else y) (if m = 12 then 1 else m + 1)
          (d - daysInMonth y m)
      else (y, m, d)

/-- Roll a non-positive day-of-month backward through the months. -/
def rollB : ℕ → ℤ → ℤ → ℤ → ℤ × ℤ × ℤ
  | 0, y, m, d => (y, m, d)
  | fuel + 1, y, m, d =>
      if d < 1 then
        rollB fuel (if m = 1 then y - 1 else y) (if m = 1 then 12 else m - 1)
          (d + daysInMonth (if m = 1 then y - 1 else y) (if m = 1 then 12 else m - 1))
      else (y, m, d)

/-- JS `Date` day-of-month normalisation: bring `(y, m, d)` with `m` already
in `[1, 12]` but `d` arbitrary to a real calendar date. -/
def normDate (y m d : ℤ) : ℤ × ℤ × ℤ :=
  if d < 1 then rollB (1 - d).toNat y m d else rollF d.toNat y m d

/-- Decimal digit character for `v ∈ [0, 9]`. -/
def digitChar (v : ℕ) : Char := Char.ofNat ('0'.toNat + v)

/-- Decimal digits of `n`, most significant first; `fuel` bounds the digit
count and every caller passes enough. -/
def natDigitsAux : ℕ → ℕ → List Char
  | 0, _ => []
  | fuel + 1, n =>
      if n < 10 then [digitChar n]
      else natDigitsAux fuel (n / 10) ++ [digitChar (n % 10)]

/-- JS `String(n)` for a natural number. -/
def jsNatRepr (n : ℕ) : List Char := natDigitsAux (n + 1) n

/-- JS `String(v)` for an integer-valued number. -/
def jsIntRepr (v : ℤ) : List Char :=
  if v < 0 then '-' :: jsNatRepr (-v).toNat else jsNatRepr v.toNat

/-- `String(v).padStart(2, "0")`: only the single-digit values `0..9`
actually get padded. -/
def pad2 (v : ℤ) : List Char :=
  if 0 ≤ v ∧ v < 10 then '0' :: jsIntRepr v else jsIntRepr v

/-- The template `` `${yy}-${mm}-${dd}` `` of the source, with `mm` and `dd`
two-digit padded. -/
def formatYmd (y m d : ℤ) : String := ⟨jsIntRepr y ++ '-' :: (pad2 m ++ '-' :: pad2 d)⟩

/-- `addMonthsYmd` (src/unnamed/part_002:442-459): month-index arithmetic
with `Math.floor` division and JS `%`, day clamped to the target month's
last day.  The `isNaN(base)` guard of the source is unreachable for
regex-accepted input and is therefore not modelled; the final
`Date.UTC(targetYear, targetMonth, day)` is modelled with the two-digit
year remap and day normalisation (which only acts when the parsed day
was 0). -/
def addMonthsYmd (ymd : String) (monthsToAdd : ℤ) : String :=
  match parseYmd ymd with
  | none => ""
  | some (y, m, d) =>
      let monthIndex := (m - 1) + monthsToAdd
      let targetYear := y + monthIndex.fdiv 12
      let targetMonth := (monthIndex.tmod 12 + 12).tmod 12
      let yy := jsUtcYear targetYear
      let lastDay := daysInMonth yy (targetMonth + 1)
      let day := min d lastDay
      let r := normDate yy (targetMonth + 1) day
      formatYmd r.1 r.2.1 r.2.2

/-- `addDaysYmd` (src/unnamed/part_002:461-472): construct
`Date.UTC(y, m - 1, d)` (year remap, month and day normalisation), then
`setUTCDate(getUTCDate() + n)` (day normalisation again). -/
def addDaysYmd (ymd : String) (daysToAdd : ℤ) : String :=
  match parseYmd ymd with
  | none => ""
  | some (y, m, d) =>
      let y1 := jsUtcYear y
      let ym := y1 + (m - 1).fdiv 12
      let mm := (m - 1) % 12
      let s := normDate ym (mm + 1) d
      let r := normDate s.1 s.2.1 (s.2.2 + daysToAdd)
      formatYmd r.1 r.2.1 r.2.2

/-- Modelled from the spec's words (§4.1): `add_months(date, n)` shifts by
`n` calendar months and clamps the day-of-month to the last valid day of
the target month. -/
def specAddMonths (y m d n : ℤ) : ℤ × ℤ × ℤ :=
  let M := 12 * y + (m - 1) + n
  (M.fdiv 12, M % 12 + 1, min d (daysInMonth (M.fdiv 12) (M % 12 + 1)))

lemma daysInMonth_bounds (y m : ℤ) : 28 ≤ daysInMonth y m ∧ daysInMonth y m ≤ 31 := by
  unfold daysInMonth
  split_ifs <;> norm_num

/-- A triple `(y, m, d)` is a real calendar date. -/
def ValidT (t : ℤ × ℤ × ℤ) : Prop :=
  1 ≤ t.2.1 ∧ t.2.1 ≤ 12 ∧ 1 ≤ t.2.2 ∧ t.2.2 ≤ daysInMonth t.1 t.2.1

lemma rollF_valid : ∀ (fuel : ℕ) (y m d : ℤ), 1 ≤ m → m ≤ 12 → 1 ≤ d →
    d ≤ 28 * ((fuel : ℤ) + 1) → ValidT (rollF fuel y m d) := by
  intro fuel
  induction fuel with
  | zero =>
      intro y m d h1 h2 h3 h4
      have hb := daysInMonth_bounds y m
      refine ⟨h1, h2, h3, show d ≤ daysInMonth y m from ?_⟩
      simp at h4
      omega
  | succ fuel ih =>
      intro y m d h1 h2 h3 h4
      have hb := daysInMonth_bounds y m
      simp only [rollF]
      by_cases hlt : daysInMonth y m < d
      · rw [if_pos hlt]
        apply ih
        · by_cases hm : m = 12 <;> simp [hm] <;> omega
        · by_cases hm : m = 12 <;> simp [hm] <;> omega
        · omega
        · push_cast
          push_cast at h4
          omega
      · rw [if_neg hlt]
        exact ⟨h1, h2, h3, show d ≤ daysInMonth y m by omega⟩

lemma rollB_valid : ∀ (fuel : ℕ) (y m d : ℤ), 1 ≤ m → m ≤ 12 →
    d ≤ daysInMonth y m → 1 - 28 * (fuel : ℤ) ≤ d → ValidT (rollB fuel y m d) := by
  intro fuel
  induction fuel with
  | zero =>
      intro y m d h1 h2 h3 h4
      refine ⟨h1, h2, show 1 ≤ d from ?_, h3⟩
      simp at h4
      omega
  | succ fuel ih =>
      intro y m d h1 h2 h3 h4
      simp only [rollB]
      by_cases hd : d < 1
      · rw [if_pos hd]
        have hb := daysInMonth_bounds (if m = 1 then y - 1 else y)
          (if m = 1 then 12 else m - 1)
        apply ih
        · by_cases hm : m = 1 <;> simp [hm] <;> omega
        · by_cases hm : m = 1 <;> simp [hm] <;> omega
        · omega
        · push_cast
          push_cast at h4
          omega
      · rw [if_neg hd]
        exact ⟨h1, h2, show 1 ≤ d by omega, h3⟩

lemma normDate_valid (y m d : ℤ) (h1 : 1 ≤ m) (h2 : m ≤ 12) :
    ValidT (normDate y m d) := by
  unfold normDate
  by_cases hd : d < 1
  · rw [if_pos hd]
    have hb := (daysInMonth_bounds y m).1
    have ht : ((1 - d).toNat : ℤ) = 1 - d := Int.toNat_of_nonneg (by omega)
    exact rollB_valid _ y m d h1 h2 (by omega) (by omega)
  · rw [if_neg hd]
    have ht : (d.toNat : ℤ) = d := Int.toNat_of_nonneg (by omega)
    exact rollF_valid _ y m d h1 h2 (by omega) (by omega)

lemma rollF_stay (fuel : ℕ) (y m d : ℤ) (h : d ≤ daysInMonth y m) :
    rollF fuel y m d = (y, m, d) := by
  cases fuel with
  | zero => rfl
  | succ fuel => simp only [rollF, if_neg (not_lt.2 h)]

lemma normDate_id (y m d : ℤ) (h1 : 1 ≤ d) (h2 : d ≤ daysInMonth y m) :
    normDate y m d = (y, m, d) := by
  unfold normDate
  rw [if_neg (by omega)]
  exact rollF_stay _ y m d h2

lemma digitChar_spec (v : ℕ) (h : v < 10) :
    (digitChar v).isDigit = true ∧ digitVal (digitChar v) = (v : ℤ) ∧
    (digitChar v).isWhitespace = false ∧ (digitChar v == '-') = false := by
  interval_cases v <;> exact ⟨by decide, by decide, by decide, by decide⟩

lemma natDigitsAux_irrel : ∀ (n f1 f2 : ℕ), n < f1 → n < f2 →
    natDigitsAux f1 n = natDigitsAux f2 n := by
  intro n
  induction n using Nat.strong_induction_on with
  | _ n ih =>
      intro f1 f2 hf1 hf2
      match f1, f2 with
      | a + 1, b + 1 =>
        simp only [natDigitsAux]
        by_cases h10 : n < 10
        · rw [if_pos h10, if_pos h10]
        · rw [if_neg h10, if_neg h10,
            ih (n / 10) (by omega) a b (by omega) (by omega)]

lemma jsNatRepr_small (n : ℕ) (h : n < 10) : jsNatRepr n = [digitChar n] := by
  simp only [jsNatRepr, natDigitsAux]
  rw [if_pos h]

lemma jsNatRepr_step (n : ℕ) (h : 10 ≤ n) :
    jsNatRepr n = jsNatRepr (n / 10) ++ [digitChar (n % 10)] := by
  show natDigitsAux (n + 1) n = _
  have h1 : natDigitsAux (n + 1) n =
      natDigitsAux n (n / 10) ++ [digitChar (n % 10)] := by
    simp only [natDigitsAux]
    rw [if_neg (by omega)]
  rw [h1, natDigitsAux_irrel (n / 10) n (n / 10 + 1) (by omega) (by omega)]
  rfl

lemma jsNatRepr_two (n : ℕ) (h1 : 10 ≤ n) (h2 : n ≤ 99) :
    jsNatRepr n = [digitChar (n / 10), digitChar (n % 10)] := by
  rw [jsNatRepr_step n h1, jsNatRepr_small (n / 10) (by omega)]
  rfl

lemma jsNatRepr_four (y : ℕ) (h1 : 1000 ≤ y) (h2 : y ≤ 9999) :
    jsNatRepr y = [digitChar (y / 1000), digitChar (y / 100 % 10),
      digitChar (y / 10 % 10), digitChar (y % 10)] := by
  rw [jsNatRepr_step y (by omega), jsNatRepr_step (y / 10) (by omega),
    jsNatRepr_two (y / 10 / 10) (by omega) (by omega)]
  have e1 : y / 10 / 10 / 10 = y / 1000 := by omega
  have e2 : y / 10 / 10 % 10 = y / 100 % 10 := by omega
  rw [e1, e2]
  rfl

lemma pad2_digits (v : ℤ) (h1 : 1 ≤ v) (h2 : v ≤ 99) :
    pad2 v = [digitChar (v.toNat / 10), digitChar (v.toNat % 10)] := by
  have ht : (v.toNat : ℤ) = v := Int.toNat_of_nonneg (by omega)
  by_cases hv : v < 10
  · rw [pad2, if_pos ⟨by omega, hv⟩, jsIntRepr, if_neg (by omega),
      jsNatRepr_small v.toNat (by omega)]
    have e1 : v.toNat / 10 = 0 := by omega
    have e2 : v.toNat % 10 = v.toNat := by omega
    rw [e1, e2]
    rfl
  · rw [pad2, if_neg (by omega), jsIntRepr, if_neg (by omega),
      jsNatRepr_two v.toNat (by omega) (by omega)]

lemma dropWhile_all_neg {p : Char → Bool} :
    ∀ l : List Char, (∀ c ∈ l, p c = false) → l.dropWhile p = l := by
  intro l h
  cases l with
  | nil => rfl
  | cons c rest =>
      rw [List.dropWhile_cons, h c (by simp)]
      simp

lemma trimChars_id (l : List Char) (h : ∀ c ∈ l, c.isWhitespace = false) :
    trimChars l = l := by
  unfold trimChars
  rw [dropWhile_all_neg l h,
    dropWhile_all_neg l.reverse (fun c hc => h c (List.mem_reverse.1 hc)),
    List.reverse_reverse]

lemma formatYmd_data (y m d : ℤ) (hy1 : 1000 ≤ y) (hy2 : y ≤ 9999)
    (hm1 : 1 ≤ m) (hm2 : m ≤ 99) (hd1 : 1 ≤ d) (hd2 : d ≤ 99) :
    (formatYmd y m d).data =
      [digitChar (y.toNat / 1000), digitChar (y.toNat / 100 % 10),
       digitChar (y.toNat / 10 % 10), digitChar (y.toNat % 10), '-',
       digitChar (m.toNat / 10), digitChar (m.toNat % 10), '-',
       digitChar (d.toNat / 10), digitChar (d.toNat % 10)] := by
  unfold formatYmd
  rw [jsIntRepr, if_neg (by omega), jsNatRepr_four y.toNat (by omega) (by omega),
    pad2_digits m hm1 hm2, pad2_digits d hd1 hd2]
  rfl

/-- Formatting a four-digit-year date prints something the parser reads
back verbatim. -/
lemma parseYmd_format (y m d : ℤ) (hy1 : 1000 ≤ y) (hy2 : y ≤ 9999)
    (hm1 : 1 ≤ m) (hm2 : m ≤ 99) (hd1 : 1 ≤ d) (hd2 : d ≤ 99) :
    parseYmd (formatYmd y m d) = some (y, m, d) := by
  have hty : (y.toNat : ℤ) = y := Int.toNat_of_nonneg (by omega)
  have htm : (m.toNat : ℤ) = m := Int.toNat_of_nonneg (by omega)
  have htd : (d.toNat : ℤ) = d := Int.toNat_of_nonneg (by omega)
  obtain ⟨q1d, q1v, q1w, q1h⟩ := digitChar_spec (y.toNat / 1000) (by omega)
  obtain ⟨q2d, q2v, q2w, q2h⟩ := digitChar_spec (y.toNat / 100 % 10) (by omega)
  obtain ⟨q3d, q3v, q3w, q3h⟩ := digitChar_spec (y.toNat / 10 % 10) (by omega)
  obtain ⟨q4d, q4v, q4w, q4h⟩ := digitChar_spec (y.toNat % 10) (by omega)
  obtain ⟨q5d, q5v, q5w, q5h⟩ := digitChar_spec (m.toNat / 10) (by omega)
  obtain ⟨q6d, q6v, q6w, q6h⟩ := digitChar_spec (m.toNat % 10) (by omega)
  obtain ⟨q7d, q7v, q7w, q7h⟩ := digitChar_spec (d.toNat / 10) (by omega)
  obtain ⟨q8d, q8v, q8w, q8h⟩ := digitChar_spec (d.toNat % 10) (by omega)
  unfold parseYmd
  rw [formatYmd_data y m d hy1 hy2 hm1 hm2 hd1 hd2]
  rw [trimChars_id _ ?mem]
  case mem =>
    intro c hc
    simp only [List.mem_cons, List.not_mem_nil, or_false] at hc
    rcases hc with rfl | rfl | rfl | rfl | rfl | rfl | rfl | rfl | rfl | rfl
    · exact q1w
    · exact q2w
    · exact q3w
    · exact q4w
    · decide
    · exact q5w
    · exact q6w
    · decide
    · exact q7w
    · exact q8w
  simp only [parseChars, q1d, q2d, q3d, q4d, q5d, q6d, q7d, q8d,
    q1v, q2v, q3v, q4v, q5v, q6v, q7v, q8v]
  rw [if_pos (by decide)]
  refine congrArg some ?_
  refine Prod.ext ?_ (Prod.ext ?_ ?_)
  · show ((((y.toNat / 1000 : ℕ) : ℤ) * 10 + ((y.toNat / 100 % 10 : ℕ) : ℤ)) * 10 +
      ((y.toNat / 10 % 10 : ℕ) : ℤ)) * 10 + ((y.toNat % 10 : ℕ) : ℤ) = y
    omega
  · show ((m.toNat / 10 : ℕ) : ℤ) * 10 + ((m.toNat % 10 : ℕ) : ℤ) = m
    omega
  · show ((d.toNat / 10 : ℕ) : ℤ) * 10 + ((d.toNat % 10 : ℕ) : ℤ) = d
    omega

lemma fdiv_add_mul_12 (a c : ℤ) : (a + 12 * c).fdiv 12 = a.fdiv 12 + c := by
  rw [Int.fdiv_eq_ediv _ (by norm_num), Int.fdiv_eq_ediv _ (by norm_num)]
  omega

/-- The JS month-index chain `((x % 12) + 12) % 12` (truncating `%`)
computes the mathematical (euclidean) remainder. -/
lemma tmod_chain (a : ℤ) : ((a.tmod 12) + 12).tmod 12 = a % 12 := by
  have key : ∀ b x : ℤ, 0 ≤ x + 12 → x % 12 = b % 12 → (x + 12).tmod 12 = b % 12 := by
    intro b x h1 h2
    rw [Int.tmod_eq_emod h1 (by norm_num)]
    omega
  rcases a with m | m
  · simp only [Int.ofNat_eq_coe]
    rw [Int.tmod_eq_emod (Int.natCast_nonneg m) (by norm_num)]
    exact key _ _ (by omega) (by omega)
  · have h0 : Int.tmod (Int.negSucc m) 12 = -((m + 1) % 12 : ℕ) := rfl
    rw [h0]
    apply key
    · have := Nat.mod_lt (m + 1) (show 0 < 12 from by norm_num)
      omega
    · rw [Int.negSucc_eq]
      omega

/-- `addMonthsYmd` on a well-formed four-digit-year date whose target year
stays four-digit: target year by floor division, target month by remainder,
day clamped to the target month's length. -/
lemma addMonthsYmd_eval (y m d n : ℤ) (hy1 : 1000 ≤ y) (hy2 : y ≤ 9999)
    (hm1 : 1 ≤ m) (hm2 : m ≤ 12) (hd1 : 1 ≤ d) (hd2 : d ≤ daysInMonth y m)
    (ht1 : 1000 ≤ y + (m - 1 + n).fdiv 12) (ht2 : y + (m - 1 + n).fdiv 12 ≤ 9999) :
    addMonthsYmd (formatYmd y m d) n =
      formatYmd (y + (m - 1 + n).fdiv 12) ((m - 1 + n) % 12 + 1)
        (min d (daysInMonth (y + (m - 1 + n).fdiv 12) ((m - 1 + n) % 12 + 1))) := by
  have hdim := daysInMonth_bounds y m
  have hparse := parseYmd_format y m d hy1 hy2 hm1 (by omega) hd1 (by omega)
  simp only [addMonthsYmd, hparse]
  rw [tmod_chain (m - 1 + n)]
  have hYY : jsUtcYear (y + (m - 1 + n).fdiv 12) = y + (m - 1 + n).fdiv 12 := by
    rw [jsUtcYear, if_neg (by omega)]
  rw [hYY]
  have hmb1 : 0 ≤ (m - 1 + n) % 12 := Int.emod_nonneg _ (by norm_num)
  have hmb2 : (m - 1 + n) % 12 < 12 := Int.emod_lt_of_pos _ (by norm_num)
  have hdimT := daysInMonth_bounds (y + (m - 1 + n).fdiv 12) ((m - 1 + n) % 12 + 1)
  rw [normDate_id _ _ _ (le_min hd1 (by omega)) (min_le_right _ _)]

/-- `addDaysYmd` on a well-formed four-digit-year date is day-of-month
normalisation of `(y, m, d + n)`. -/
lemma addDaysYmd_eval (y m d n : ℤ) (hy1 : 1000 ≤ y) (hy2 : y ≤ 9999)
    (hm1 : 1 ≤ m) (hm2 : m ≤ 12) (hd1 : 1 ≤ d) (hd2 : d ≤ daysInMonth y m) :
    addDaysYmd (formatYmd y m d) n =
      formatYmd (normDate y m (d + n)).1 (normDate y m (d + n)).2.1
        (normDate y m (d + n)).2.2 := by
  have hdim := daysInMonth_bounds y m
  have hparse := parseYmd_format y m d hy1 hy2 hm1 (by omega) hd1 (by omega)
  simp only [addDaysYmd, hparse]
  have hY : jsUtcYear y = y := by rw [jsUtcYear, if_neg (by omega)]
  have hf : (m - 1).fdiv 12 = 0 := by
    rw [Int.fdiv_eq_ediv _ (by norm_num)]
    omega
  have hm0 : (m - 1) % 12 = m - 1 := by omega
  rw [hY, hf, hm0, add_zero, sub_add_cancel, normDate_id y m d hd1 hd2]

/-- C6 (amended): for four-digit-year dates whose target year is again
four-digit, `addMonthsYmd` shifts by `n` calendar months and clamps the
day-of-month to the last valid day of the target month (`specAddMonths`,
written from the spec's words), leap-year aware; in particular
Jan 31 2024 + 1 month = Feb 29 2024 and Jan 31 2023 + 1 month =
Feb 28 2023. -/
theorem addMonths_shifts_and_clamps :
    (∀ y m d n : ℤ, 1000 ≤ y → y ≤ 9999 → 1 ≤ m → m ≤ 12 → 1 ≤ d →
        d ≤ daysInMonth y m → 1000 ≤ y + (m - 1 + n).fdiv 12 →
        y + (m - 1 + n).fdiv 12 ≤ 9999 →
        addMonthsYmd (formatYmd y m d) n =
          formatYmd (specAddMonths y m d n).1 (specAddMonths y m d n).2.1
            (specAddMonths y m d n).2.2) ∧
    addMonthsYmd "2024-01-31" 1 = "2024-02-29" ∧
    addMonthsYmd "2023-01-31" 1 = "2023-02-28" := by
  refine ⟨?_, by decide, by decide⟩
  intro y m d n hy1 hy2 hm1 hm2 hd1 hd2 ht1 ht2
  rw [addMonthsYmd_eval y m d n hy1 hy2 hm1 hm2 hd1 hd2 ht1 ht2]
  have e1 : (12 * y + (m - 1) + n).fdiv 12 = y + (m - 1 + n).fdiv 12 := by
    rw [show 12 * y + (m - 1) + n = (m - 1 + n) + 12 * y from by ring,
      fdiv_add_mul_12]
    ring
  have e2 : (12 * y + (m - 1) + n) % 12 = (m - 1 + n) % 12 := by omega
  show _ = formatYmd ((12 * y + (m - 1) + n).fdiv 12)
    ((12 * y + (m - 1) + n) % 12 + 1)
    (min d (daysInMonth ((12 * y + (m - 1) + n).fdiv 12)
      ((12 * y + (m - 1) + n) % 12 + 1)))
  rw [e1, e2]

/-- Witness for `addMonths_shifts_and_clamps` at `2024-01-31 + 1` month. -/
theorem addMonths_shifts_and_clamps_witness :
    addMonthsYmd (formatYmd 2024 1 31) 1 =
      formatYmd (specAddMonths 2024 1 31 1).1 (specAddMonths 2024 1 31 1).2.1
        (specAddMonths 2024 1 31 1).2.2 :=
  addMonths_shifts_and_clamps.1 2024 1 31 1 (by norm_num) (by norm_num)
    (by norm_num) (by norm_num) (by norm_num) (by decide) (by decide) (by decide)

/-- C6 as stated is false for valid ISO dates with a two-digit `Date.UTC`
year: shifting `0099-01-15` by one month must stay in year 99 (the spec's
month shift gives `(99, 2, 15)`), but the code returns `1999-02-15`. -/
theorem addMonths_remap_breaks_small_years :
    parseYmd "0099-01-15" = some (99, 1, 15) ∧
    (1 : ℤ) ≤ 15 ∧ (15 : ℤ) ≤ daysInMonth 99 1 ∧
    specAddMonths 99 1 15 1 = (99, 2, 15) ∧
    addMonthsYmd "0099-01-15" 1 = "1999-02-15" ∧
    parseYmd "1999-02-15" = some (1999, 2, 15) := by
  decide

/-- C7 (amended): on any string the parser rejects, `addMonthsYmd` and
`addDaysYmd` return the empty string — the source has no error channel at
all for malformed input. -/
theorem malformed_dates_return_empty (s : String) (n k : ℤ)
    (h : parseYmd s = none) :
    addMonthsYmd s n = "" ∧ addDaysYmd s k = "" := by
  constructor
  · simp only [addMonthsYmd, h]
  · simp only [addDaysYmd, h]

/-- Witness for `malformed_dates_return_empty` on a concrete malformed
string. -/
theorem malformed_dates_return_empty_witness :
    addMonthsYmd "not-a-date" 1 = "" ∧ addDaysYmd "not-a-date" 7 = "" :=
  malformed_dates_return_empty "not-a-date" 1 7 (by decide)

/-- C7 as stated is false: on a malformed date the functions return the
normal value `""` instead of failing with any error. -/
theorem malformed_dates_no_exception :
    addMonthsYmd "2024/01/31" 1 = "" ∧ addDaysYmd "2024/01/31" 1 = "" := by
  decide

/-- C10 (amended): for valid four-digit-year dates and any `n`, as long as
the resulting year stays in `[1000, 9999]`, both functions return a string
that parses back as a valid calendar date. -/
theorem add_functions_closed_in_range :
    (∀ y m d n : ℤ, 1000 ≤ y → y ≤ 9999 → 1 ≤ m → m ≤ 12 → 1 ≤ d →
      d ≤ daysInMonth y m → 1000 ≤ y + (m - 1 + n).fdiv 12 →
      y + (m - 1 + n).fdiv 12 ≤ 9999 →
      ∃ y2 m2 d2 : ℤ, ValidT (y2, m2, d2) ∧
        parseYmd (addMonthsYmd (formatYmd y m d) n) = some (y2, m2, d2)) ∧
    (∀ y m d n : ℤ, 1000 ≤ y → y ≤ 9999 → 1 ≤ m → m ≤ 12 → 1 ≤ d →
      d ≤ daysInMonth y m →
      1000 ≤ (normDate y m (d + n)).1 → (normDate y m (d + n)).1 ≤ 9999 →
      ∃ y2 m2 d2 : ℤ, ValidT (y2, m2, d2) ∧
        parseYmd (addDaysYmd (formatYmd y m d) n) = some (y2, m2, d2)) := by
  constructor
  · intro y m d n hy1 hy2 hm1 hm2 hd1 hd2 ht1 ht2
    rw [addMonthsYmd_eval y m d n hy1 hy2 hm1 hm2 hd1 hd2 ht1 ht2]
    have hmb1 : 0 ≤ (m - 1 + n) % 12 := Int.emod_nonneg _ (by norm_num)
    have hmb2 : (m - 1 + n) % 12 < 12 := Int.emod_lt_of_pos _ (by norm_num)
    have hdimT := daysInMonth_bounds (y + (m - 1 + n).fdiv 12) ((m - 1 + n) % 12 + 1)
    refine ⟨y + (m - 1 + n).fdiv 12, (m - 1 + n) % 12 + 1,
      min d (daysInMonth (y + (m - 1 + n).fdiv 12) ((m - 1 + n) % 12 + 1)),
      ⟨show (1 : ℤ) ≤ (m - 1 + n) % 12 + 1 by omega,
       show (m - 1 + n) % 12 + 1 ≤ 12 by omega,
       le_min hd1 (by omega), min_le_right _ _⟩,
      parseYmd_format _ _ _ ht1 ht2 (by omega) (by omega)
        (le_min hd1 (by omega))
        (le_trans (min_le_right _ _) (by omega))⟩
  · intro y m d n hy1 hy2 hm1 hm2 hd1 hd2 ht1 ht2
    rw [addDaysYmd_eval y m d n hy1 hy2 hm1 hm2 hd1 hd2]
    obtain ⟨v1, v2, v3, v4⟩ := normDate_valid y m (d + n) hm1 hm2
    have hdimR := daysInMonth_bounds (normDate y m (d + n)).1
      (normDate y m (d + n)).2.1
    exact ⟨_, _, _, ⟨v1, v2, v3, v4⟩,
      parseYmd_format _ _ _ ht1 ht2 v1 (by omega) v3 (by omega)⟩

/-- Witness for `add_functions_closed_in_range` at two concrete calls. -/
theorem add_functions_closed_in_range_witness :
    (∃ y2 m2 d2 : ℤ, ValidT (y2, m2, d2) ∧
      parseYmd (addMonthsYmd (formatYmd 2024 1 31) 1) = some (y2, m2, d2)) ∧
    (∃ y2 m2 d2 : ℤ, ValidT (y2, m2, d2) ∧
      parseYmd (addDaysYmd (formatYmd 2024 2 29) 365) = some (y2, m2, d2)) :=
  ⟨add_functions_closed_in_range.1 2024 1 31 1 (by norm_num) (by norm_num)
      (by norm_num) (by norm_num) (by norm_num) (by decide) (by decide) (by decide),
   add_functions_closed_in_range.2 2024 2 29 365 (by norm_num) (by norm_num)
      (by norm_num) (by norm_num) (by norm_num) (by decide) (by decide) (by decide)⟩

/-- C10 as stated is false: valid calendar dates and integers `n` exist for
which the result's year leaves four digits and the output no longer
encodes a valid `YYYY-MM-DD` date (its own parser rejects it), though it
is not the empty string either. -/
theorem add_functions_can_escape_valid_dates :
    parseYmd "0100-01-15" = some (100, 1, 15) ∧
    ((1 : ℤ) ≤ 15 ∧ (15 : ℤ) ≤ daysInMonth 100 1) ∧
    addMonthsYmd "0100-01-15" (-2400) = "-100-01-15" ∧
    parseYmd "-100-01-15" = none ∧
    parseYmd "0100-01-01" = some (100, 1, 1) ∧
    addDaysYmd "0100-01-01" (-1) = "99-12-31" ∧
    parseYmd "99-12-31" = none := by
  decide

/-! ## Rate-period validation (src/unnamed/part_002:1888-1918) -/

instance {e a : Type} [DecidableEq e] [DecidableEq a] : DecidableEq (Except e a)
  | .error x, .error y =>
      if h : x = y then .isTrue (by rw [h]) else .isFalse (by simp [h])
  | .error _, .ok _ => .isFalse (by simp)
  | .ok _, .error _ => .isFalse (by simp)
  | .ok x, .ok y =>
      if h : x = y then .isTrue (by rw [h]) else .isFalse (by simp [h])

/-- One raw form row as `normalizeAndValidateRatePeriods` receives it. -/
structure RateRowInput where
  annual_rate : String
  start_date : String
  end_date : String
  deriving Repr, DecidableEq

/-- One parsed, validated rate period. -/
structure RatePeriod where
  annual_rate : ℚ
  start_date : String
  end_date : String
  deriving Repr, DecidableEq

/-- JS `<` on strings: lexicographic on code units (the strings compared
here are ASCII dates, where Lean characters and UTF-16 units agree; the
`localeCompare` used by the sort behaves identically on them). -/
def charsLtB : List Char → List Char → Bool
  | _, [] => false
  | [], _ :: _ => true
  | x :: xs, y :: ys => if x < y then true else if y < x then false else charsLtB xs ys

def strLt (a b : String) : Bool := charsLtB a.data b.data

/-- `.replace(",", ".")`: JS string-pattern replace touches only the first
occurrence. -/
def replaceFirstComma : List Char → List Char
  | [] => []
  | c :: rest => if c = ',' then '.' :: rest else c :: replaceFirstComma rest

/-- Integer value of a digit run. -/
def digitsValZ (l : List Char) : ℤ := l.foldl (fun acc c => acc * 10 + digitVal c) 0

/-- Unsigned part of JS `Number(...)` on the plain decimal literals a rate
field can carry (digits with at most one decimal point; anything else —
letters, a second separator, `Infinity` — is `NaN`, modelled `none`). -/
def parseDecCore (body : List Char) : Option ℚ :=
  let ip := body.takeWhile (fun c => c != '.')
  let rest := body.dropWhile (fun c => c != '.')
  match rest with
  | [] =>
      if !ip.isEmpty && ip.all Char.isDigit then some ((digitsValZ ip : ℤ) : ℚ)
      else none
  | _ :: frac =>
      if (!ip.isEmpty || !frac.isEmpty) && ip.all Char.isDigit &&
          frac.all Char.isDigit then
        some (((digitsValZ ip : ℤ) : ℚ) + ((digitsValZ frac : ℤ) : ℚ) / 10 ^ frac.length)
      else none

/-- JS `Number(...)` with an optional sign. -/
def parseDecimal : List Char → Option ℚ
  | '-' :: rest => (parseDecCore rest).map (fun q => -q)
  | '+' :: rest => parseDecCore rest
  | l => parseDecCore l

/-- The `rows.map(...)` callback of `normalizeAndValidateRatePeriods`:
trim, presence checks, rate parse with `< 0` bound, date-order check; each
`throw` is the exact message. -/
def parseRateRow (row : RateRowInput) : Except String RatePeriod :=
  let annualRaw : String := ⟨trimChars row.annual_rate.data⟩
  let startRaw : String := ⟨trimChars row.start_date.data⟩
  let endRaw : String := ⟨trimChars row.end_date.data⟩
  if annualRaw = "" then .error "Укажите ставку для каждого периода"
  else if startRaw = "" ∨ endRaw = "" then
    .error "Укажите даты начала и конца для каждого периода ставки"
  else
    match parseDecimal (replaceFirstComma annualRaw.data) with
    | none => .error "Ставка должна быть числом от 0"
    | some annualRate =>
        if annualRate < 0 then .error "Ставка должна быть числом от 0"
        else if strLt endRaw startRaw then
          .error "Дата начала периода не может быть позже даты конца"
        else .ok ⟨annualRate, startRaw, endRaw⟩

/-- `rows.map(...)` over the whole list; a `throw` inside the callback
aborts the map at the first bad row. -/
def parseRateRows : List RateRowInput → Except String (List RatePeriod)
  | [] => .ok []
  | row :: rest =>
      match parseRateRow row with
      | .error e => .error e
      | .ok p =>
          match parseRateRows rest with
          | .error e => .error e
          | .ok ps => .ok (p :: ps)

/-- The sort order `(a, b) => a.start_date.localeCompare(b.start_date)`. -/
def rpLe (a b : RatePeriod) : Prop := strLt b.start_date a.start_date = false

instance : DecidableRel rpLe := fun _ _ => instDecidableEqBool _ _

/-- The `forEach` walk over the sorted periods (src/unnamed/part_002:
1902-1913): `prevEnd` is the previous row's `end_date`; on success the
final `prevEnd` is returned for the coverage check. -/
def walkRatePeriods : String → List RatePeriod → Except String String
  | prevEnd, [] => .ok prevEnd
  | prevEnd, row :: rest =>
      let expectedStart := addDaysYmd prevEnd 1
      if strLt row.start_date expectedStart then
        .error "Периоды ставок пересекаются"
      else if strLt expectedStart row.start_date then
        .error ("Есть разрыв между периодами ставок (" ++ prevEnd ++ " → " ++
          row.start_date ++ ")")
      else walkRatePeriods row.end_date rest

/-- `normalizeAndValidateRatePeriods` (src/unnamed/part_002:1888-1918). -/
def normalizeAndValidateRatePeriods (rows : List RateRowInput)
    (loanStart loanEnd : String) : Except String (List RatePeriod) :=
  match parseRateRows rows with
  | .error e => .error e
  | .ok parsed0 =>
      match List.insertionSort rpLe parsed0 with
      | [] => .error "Добавьте хотя бы одну ставку"
      | head :: tail =>
          if strLt loanStart head.start_date then
            .error "Периоды ставок должны начинаться не позже даты старта кредита/ипотеки"
          else
            match walkRatePeriods head.end_date tail with
            | .error e => .error e
            | .ok prevEnd =>
                if strLt prevEnd loanEnd then
                  .error ("Периоды ставок должны покрывать срок до " ++ loanEnd)
                else .ok (head :: tail)

lemma charsLtB_irrefl : ∀ l : List Char, charsLtB l l = false := by
  intro l
  induction l with
  | nil => rfl
  | cons c rest ih => simp [charsLtB, ih]

lemma strLt_irrefl (s : String) : strLt s s = false := charsLtB_irrefl s.data

lemma charsLtB_asymm : ∀ x y : List Char,
    charsLtB x y = true → charsLtB y x = false := by
  intro x
  induction x with
  | nil =>
      intro y _
      cases y with
      | nil => rfl
      | cons b bs => rfl
  | cons a as ih =>
      intro y h
      cases y with
      | nil => exact absurd h (by simp [charsLtB])
      | cons b bs =>
          simp only [charsLtB] at h ⊢
          by_cases hab : a < b
          · rw [if_neg (asymm hab), if_pos hab]
          · rw [if_neg hab] at h
            by_cases hba : b < a
            · rw [if_pos hba] at h
              exact absurd h (by simp)
            · rw [if_neg hba] at h
              rw [if_neg hba, if_neg hab]
              exact ih bs h

lemma charsLtB_trans : ∀ x y z : List Char,
    charsLtB x y = true → charsLtB y z = true → charsLtB x z = true := by
  intro x
  induction x with
  | nil =>
      intro y z hxy hyz
      cases y with
      | nil => exact hyz
      | cons b bs =>
          cases z with
          | nil => exact absurd hyz (by simp [charsLtB])
          | cons c cs => rfl
  | cons a as ih =>
      intro y z hxy hyz
      cases y with
      | nil => exact absurd hxy (by simp [charsLtB])
      | cons b bs =>
          cases z with
          | nil => exact absurd hyz (by simp [charsLtB])
          | cons c cs =>
              simp only [charsLtB] at hxy hyz ⊢
              by_cases hab : a < b
              · by_cases hbc : b < c
                · rw [if_pos (lt_trans hab hbc)]
                · rw [if_neg hbc] at hyz
                  by_cases hcb : c < b
                  · rw [if_pos hcb] at hyz
                    exact absurd hyz (by simp)
                  · rw [if_neg hcb] at hyz
                    have hbc' : b = c := le_antisymm (not_lt.1 hcb) (not_lt.1 hbc)
                    rw [if_pos (hbc' ▸ hab)]
              · rw [if_neg hab] at hxy
                by_cases hba : b < a
                · rw [if_pos hba] at hxy
                  exact absurd hxy (by simp)
                · rw [if_neg hba] at hxy
                  have hab' : a = b := le_antisymm (not_lt.1 hba) (not_lt.1 hab)
                  subst hab'
                  by_cases hac : a < c
                  · rw [if_pos hac]
                  · rw [if_neg hac] at hyz ⊢
                    by_cases hca : c < a
                    · rw [if_pos hca] at hyz
                      exact absurd hyz (by simp)
                    · rw [if_neg hca] at hyz ⊢
                      exact ih bs cs hxy hyz

lemma charsLtB_conn : ∀ x y : List Char,
    charsLtB x y = false → charsLtB y x = false → x = y := by
  intro x
  induction x with
  | nil =>
      intro y hxy _
      cases y with
      | nil => rfl
      | cons b bs => exact absurd hxy (by simp [charsLtB])
  | cons a as ih =>
      intro y hxy hyx
      cases y with
      | nil => exact absurd hyx (by simp [charsLtB])
      | cons b bs =>
          simp only [charsLtB] at hxy hyx
          by_cases hab : a < b
          · rw [if_pos hab] at hxy
            exact absurd hxy (by simp)
          · by_cases hba : b < a
            · rw [if_pos hba] at hyx
              exact absurd hyx (by simp)
            · rw [if_neg hab, if_neg hba] at hxy
              rw [if_neg hba, if_neg hab] at hyx
              have : a = b := le_antisymm (not_lt.1 hba) (not_lt.1 hab)
              rw [this, ih bs hxy hyx]

instance : IsTotal RatePeriod rpLe := by
  constructor
  intro a b
  cases hb : strLt b.start_date a.start_date with
  | false => exact Or.inl hb
  | true => exact Or.inr (charsLtB_asymm _ _ hb)

instance : IsTrans RatePeriod rpLe := by
  constructor
  intro a b c hab hbc
  unfold rpLe strLt at hab hbc ⊢
  cases hca : charsLtB c.start_date.data a.start_date.data with
  | false => rfl
  | true =>
      exfalso
      cases hbcb : charsLtB b.start_date.data c.start_date.data with
      | true =>
          have htr := charsLtB_trans _ _ _ hbcb hca
          rw [htr] at hab
          exact Bool.noConfusion hab
      | false =>
          have heq := charsLtB_conn _ _ hbcb hbc
          rw [← heq] at hca
          rw [hca] at hab
          exact Bool.noConfusion hab

/-- A row the callback accepts carries a nonnegative rate. -/
lemma parseRateRow_ok_nonneg (row : RateRowInput) (p : RatePeriod)
    (h : parseRateRow row = .ok p) : 0 ≤ p.annual_rate := by
  simp only [parseRateRow] at h
  split at h
  · exact Except.noConfusion h
  split at h
  · exact Except.noConfusion h
  split at h
  · exact Except.noConfusion h
  split at h
  · exact Except.noConfusion h
  next hrate =>
    split at h
    · exact Except.noConfusion h
    injection h with h2
    rw [← h2]
    exact not_lt.1 hrate

/-- Every parsed period comes from some input row the callback accepted. -/
lemma parseRateRows_sound : ∀ (rows : List RateRowInput)
    (parsed : List RatePeriod), parseRateRows rows = .ok parsed →
    ∀ p ∈ parsed, ∃ row ∈ rows, parseRateRow row = .ok p := by
  intro rows
  induction rows with
  | nil =>
      intro parsed h p hp
      simp only [parseRateRows] at h
      injection h with h2
      rw [← h2] at hp
      exact absurd hp (List.not_mem_nil p)
  | cons row rest ih =>
      intro parsed h p hp
      simp only [parseRateRows] at h
      cases hr : parseRateRow row with
      | error e => rw [hr] at h; exact Except.noConfusion h
      | ok q =>
          rw [hr] at h
          cases hrs : parseRateRows rest with
          | error e => rw [hrs] at h; exact Except.noConfusion h
          | ok ps =>
              rw [hrs] at h
              injection h with h2
              rw [← h2] at hp
              rcases List.mem_cons.1 hp with rfl | hp2
              · exact ⟨row, List.mem_cons_self row rest, hr⟩
              · obtain ⟨r2, hr2, hok2⟩ := ih ps hrs p hp2
                exact ⟨r2, List.mem_cons_of_mem row hr2, hok2⟩

/-- Anatomy of a successful validation: the rows all parsed, and the output
is exactly their sort by `start_date`. -/
lemma normalize_ok_elim (rows : List RateRowInput) (ls le : String)
    (out : List RatePeriod)
    (hok : normalizeAndValidateRatePeriods rows ls le = .ok out) :
    ∃ parsed0, parseRateRows rows = .ok parsed0 ∧
      out = List.insertionSort rpLe parsed0 := by
  unfold normalizeAndValidateRatePeriods at hok
  split at hok
  · exact Except.noConfusion hok
  next parsed0 hpr =>
    refine ⟨parsed0, hpr, ?_⟩
    split at hok
    · exact Except.noConfusion hok
    next head tail hsort =>
      split at hok
      · exact Except.noConfusion hok
      split at hok
      · exact Except.noConfusion hok
      next pe hw =>
        split at hok
        · exact Except.noConfusion hok
        injection hok with h2
        rw [← h2, hsort]

/-- C3: the rate-period validator sorts by `start_date` and then accepts a
single period spanning exactly `[loan_start, loan_end]`; raises the
missing-head error when the earliest start is after `loan_start`; reduces
to the pairwise walk, in which an adjacent pair starting before
`prev.end_date + 1 day` raises the overlap error, one starting after it
raises the gap error naming the range, and an exactly contiguous pair
advances; and raises the missing-tail error when the last `end_date` is
before `loan_end`; in particular a 1-day gap, a 1-day overlap and coverage
stopping short of `loan_end` are each rejected on concrete inputs. -/
theorem rate_period_validator_spec :
    (∀ (row : RateRowInput) (p : RatePeriod) ls,
        parseRateRow row = .ok p → p.start_date = ls →
        normalizeAndValidateRatePeriods [row] ls p.end_date = .ok [p]) ∧
    (∀ rows ls le parsed head tail,
        parseRateRows rows = .ok parsed →
        List.insertionSort rpLe parsed = head :: tail →
        strLt ls head.start_date = true →
        normalizeAndValidateRatePeriods rows ls le =
          .error "Периоды ставок должны начинаться не позже даты старта кредита/ипотеки") ∧
    (∀ rows ls le parsed head tail,
        parseRateRows rows = .ok parsed →
        List.insertionSort rpLe parsed = head :: tail →
        strLt ls head.start_date = false →
        normalizeAndValidateRatePeriods rows ls le =
          (match walkRatePeriods head.end_date tail with
           | .error e => .error e
           | .ok prevEnd =>
               if strLt prevEnd le then
                 .error ("Периоды ставок должны покрывать срок до " ++ le)
               else .ok (head :: tail))) ∧
    (∀ prevEnd (p : RatePeriod) rest,
        strLt p.start_date (addDaysYmd prevEnd 1) = true →
        walkRatePeriods prevEnd (p :: rest) =
          .error "Периоды ставок пересекаются") ∧
    (∀ prevEnd (p : RatePeriod) rest,
        strLt p.start_date (addDaysYmd prevEnd 1) = false →
        strLt (addDaysYmd prevEnd 1) p.start_date = true →
        walkRatePeriods prevEnd (p :: rest) =
          .error ("Есть разрыв между периодами ставок (" ++ prevEnd ++ " → " ++
            p.start_date ++ ")")) ∧
    (∀ prevEnd (p : RatePeriod) rest,
        p.start_date = addDaysYmd prevEnd 1 →
        walkRatePeriods prevEnd (p :: rest) = walkRatePeriods p.end_date rest) ∧
    (∀ rows ls le out,
        normalizeAndValidateRatePeriods rows ls le = .ok out →
        List.Sorted rpLe out) ∧
    (normalizeAndValidateRatePeriods
        [⟨"10", "2024-01-01", "2024-06-30"⟩, ⟨"12", "2024-07-02", "2024-12-31"⟩]
        "2024-01-01" "2024-12-31" =
      .error "Есть разрыв между периодами ставок (2024-06-30 → 2024-07-02)") ∧
    (normalizeAndValidateRatePeriods
        [⟨"10", "2024-01-01", "2024-06-30"⟩, ⟨"12", "2024-06-30", "2024-12-31"⟩]
        "2024-01-01" "2024-12-31" = .error "Периоды ставок пересекаются") ∧
    (normalizeAndValidateRatePeriods [⟨"10", "2024-01-01", "2024-12-30"⟩]
        "2024-01-01" "2024-12-31" =
      .error "Периоды ставок должны покрывать срок до 2024-12-31") := by
  refine ⟨?_, ?_, ?_, ?_, ?_, ?_, ?_, by decide, by decide, by decide⟩
  · intro row p ls hrow hs
    subst hs
    simp only [normalizeAndValidateRatePeriods, parseRateRows, hrow,
      List.insertionSort, List.orderedInsert, strLt_irrefl, walkRatePeriods,
      Bool.false_eq_true, if_false]
  · intro rows ls le parsed head tail hparse hsort hlt
    simp only [normalizeAndValidateRatePeriods, hparse, hsort, hlt, if_true]
  · intro rows ls le parsed head tail hparse hsort hlt
    simp only [normalizeAndValidateRatePeriods, hparse, hsort, hlt,
      Bool.false_eq_true, if_false]
  · intro prevEnd p rest h
    simp only [walkRatePeriods, h, if_true]
  · intro prevEnd p rest h1 h2
    simp only [walkRatePeriods, h1, h2, Bool.false_eq_true, if_false, if_true]
  · intro prevEnd p rest h
    simp only [walkRatePeriods, h, strLt_irrefl, Bool.false_eq_true, if_false]
  · intro rows ls le out hok
    obtain ⟨parsed0, _, hout⟩ := normalize_ok_elim rows ls le out hok
    rw [hout]
    exact List.sorted_insertionSort rpLe parsed0

/-- Witness for `rate_period_validator_spec`: the single-period acceptance
at a concrete row. -/
theorem rate_period_validator_spec_witness :
    normalizeAndValidateRatePeriods [⟨"10", "2024-01-01", "2024-12-31"⟩]
      "2024-01-01"
      (RatePeriod.end_date ⟨10, "2024-01-01", "2024-12-31"⟩) =
      .ok [⟨10, "2024-01-01", "2024-12-31"⟩] :=
  rate_period_validator_spec.1 ⟨"10", "2024-01-01", "2024-12-31"⟩
    ⟨10, "2024-01-01", "2024-12-31"⟩ "2024-01-01" (by decide) rfl

/-- C4 (amended): the validator rejects any period whose rate parses below
0 (and any non-numeric rate, with the same message), and every period in a
successful output carries a nonnegative rate; it imposes no upper bound. -/
theorem rate_period_rates_bounded_below :
    (∀ rows ls le out, normalizeAndValidateRatePeriods rows ls le = .ok out →
        ∀ p ∈ out, 0 ≤ p.annual_rate) ∧
    (normalizeAndValidateRatePeriods [⟨"-5", "2024-01-01", "2024-12-31"⟩]
        "2024-01-01" "2024-12-31" = .error "Ставка должна быть числом от 0") := by
  constructor
  · intro rows ls le out hok p hp
    obtain ⟨parsed0, hpr, hout⟩ := normalize_ok_elim rows ls le out hok
    rw [hout] at hp
    have hp0 : p ∈ parsed0 := (List.perm_insertionSort rpLe parsed0).mem_iff.1 hp
    obtain ⟨row, _, hokrow⟩ := parseRateRows_sound rows parsed0 hpr p hp0
    exact parseRateRow_ok_nonneg row p hokrow
  · decide

/-- Witness for `rate_period_rates_bounded_below` at a concrete accepted
input. -/
theorem rate_period_rates_bounded_below_witness :
    0 ≤ (RatePeriod.annual_rate ⟨10, "2024-01-01", "2024-12-31"⟩) :=
  rate_period_rates_bounded_below.1 [⟨"10", "2024-01-01", "2024-12-31"⟩]
    "2024-01-01" "2024-12-31" [⟨10, "2024-01-01", "2024-12-31"⟩] (by decide)
    ⟨10, "2024-01-01", "2024-12-31"⟩ (by decide)

/-- C4 as stated is false: a period with `annual_rate = 150 > 100` covering
the whole loan passes validation and a validated list is returned. -/
theorem rate_above_100_accepted :
    normalizeAndValidateRatePeriods [⟨"150", "2024-01-01", "2024-12-31"⟩]
      "2024-01-01" "2024-12-31" =
      .ok [⟨150, "2024-01-01", "2024-12-31"⟩] ∧
    (100 : ℚ) < RatePeriod.annual_rate ⟨150, "2024-01-01", "2024-12-31"⟩ := by
  constructor
  · decide
  · norm_num

/-! ## `normalizeLoanRateRows` (src/unnamed/part_002:1247-1259) -/

/-- One raw CreateLoan-form rate row; `annual_rate` is the value of
`Number(x.annual_rate)`, with `none` for a non-finite result. -/
structure LoanRateRow where
  start_date : String
  end_date : String
  annual_rate : Option ℚ
  deriving Repr, DecidableEq

/-- The `rows.map` step: trim both date strings, keep the parsed rate. -/
def loanRowTrim (x : LoanRateRow) : LoanRateRow :=
  ⟨⟨trimChars x.start_date.data⟩, ⟨trimChars x.end_date.data⟩, x.annual_rate⟩

/-- The `.filter` predicate: both trimmed dates truthy (nonempty) and the
rate finite. -/
def loanRowKeep (x : LoanRateRow) : Bool :=
  !(x.start_date == "") && !(x.end_date == "") && x.annual_rate.isSome

/-- The sort order by `start_date`. -/
def lrLe (a b : LoanRateRow) : Prop := strLt b.start_date a.start_date = false

instance : DecidableRel lrLe := fun _ _ => instDecidableEqBool _ _

instance : IsTotal LoanRateRow lrLe := by
  constructor
  intro a b
  cases hb : strLt b.start_date a.start_date with
  | false => exact Or.inl hb
  | true => exact Or.inr (charsLtB_asymm _ _ hb)

instance : IsTrans LoanRateRow lrLe := by
  constructor
  intro a b c hab hbc
  unfold lrLe strLt at hab hbc ⊢
  cases hca : charsLtB c.start_date.data a.start_date.data with
  | false => rfl
  | true =>
      exfalso
      cases hbcb : charsLtB b.start_date.data c.start_date.data with
      | true =>
          have htr := charsLtB_trans _ _ _ hbcb hca
          rw [htr] at hab
          exact Bool.noConfusion hab
      | false =>
          have heq := charsLtB_conn _ _ hbcb hbc
          rw [← heq] at hca
          rw [hca] at hab
          exact Bool.noConfusion hab

/-- `normalizeLoanRateRows` (src/unnamed/part_002:1247-1259): trim and
filter the rows; if nothing survives, fall back to one period
`[firstPaymentDate, addMonthsYmd firstPaymentDate (termMonths-1)]` (or
`firstPaymentDate` itself when the month shift returns `""`) at the
fallback rate; otherwise sort the survivors by `start_date`. -/
def normalizeLoanRateRows (rows : List LoanRateRow) (fallbackRate : ℚ)
    (firstPaymentDate : String) (termMonths : ℤ) : List LoanRateRow :=
  let out := (rows.map loanRowTrim).filter loanRowKeep
  if out.isEmpty then
    let e := addMonthsYmd firstPaymentDate (termMonths - 1)
    [⟨firstPaymentDate, if e = "" then firstPaymentDate else e, some fallbackRate⟩]
  else List.insertionSort lrLe out

/-- C9: `normalizeLoanRateRows` silently drops rows failing the
trim-and-keep filter and never raises any error: when nothing survives it
returns exactly one period `[first_payment_date,
add_months(first_payment_date, term_months − 1)]` carrying the fallback
rate, and otherwise it returns precisely the surviving rows sorted by
`start_date`, with no gap, overlap or coverage check (its result is always
a plain nonempty list). -/
theorem normalizeLoanRateRows_spec :
    (∀ (rows : List LoanRateRow) fb fpd tm,
        (rows.map loanRowTrim).filter loanRowKeep = [] →
        addMonthsYmd fpd (tm - 1) ≠ "" →
        normalizeLoanRateRows rows fb fpd tm =
          [⟨fpd, addMonthsYmd fpd (tm - 1), some fb⟩]) ∧
    (∀ (rows : List LoanRateRow) fb fpd tm,
        (rows.map loanRowTrim).filter loanRowKeep ≠ [] →
        (normalizeLoanRateRows rows fb fpd tm).Perm
          ((rows.map loanRowTrim).filter loanRowKeep) ∧
        List.Sorted lrLe (normalizeLoanRateRows rows fb fpd tm)) ∧
    (∀ (rows : List LoanRateRow) fb fpd tm,
        normalizeLoanRateRows rows fb fpd tm ≠ []) := by
  refine ⟨?_, ?_, ?_⟩
  · intro rows fb fpd tm hfil hmo
    unfold normalizeLoanRateRows
    rw [hfil]
    simp only [List.isEmpty_nil, if_true, if_neg hmo]
  · intro rows fb fpd tm hfil
    unfold normalizeLoanRateRows
    rw [if_neg (by simpa [List.isEmpty_iff] using hfil)]
    exact ⟨List.perm_insertionSort lrLe _, List.sorted_insertionSort lrLe _⟩
  · intro rows fb fpd tm
    unfold normalizeLoanRateRows
    by_cases hfil : ((rows.map loanRowTrim).filter loanRowKeep).isEmpty = true
    · rw [if_pos hfil]
      simp
    · rw [if_neg hfil]
      intro hnil
      have hperm := List.perm_insertionSort lrLe
        ((rows.map loanRowTrim).filter loanRowKeep)
      rw [hnil] at hperm
      rw [List.isEmpty_iff] at hfil
      exact hfil hperm.nil_eq.symm

/-- Witness for `normalizeLoanRateRows_spec`: the fallback branch and the
sorting branch at concrete inputs. -/
theorem normalizeLoanRateRows_spec_witness :
    normalizeLoanRateRows [⟨"", "2025-06-30", some 7⟩] 5 "2025-01-01" 240 =
      [⟨"2025-01-01", addMonthsYmd "2025-01-01" (240 - 1), some 5⟩] ∧
    (normalizeLoanRateRows [⟨"2025-06-01", "2025-12-31", some 7⟩] 5
        "2025-01-01" 240).Perm
      (([(⟨"2025-06-01", "2025-12-31", some 7⟩ : LoanRateRow)].map
          loanRowTrim).filter loanRowKeep) :=
  ⟨normalizeLoanRateRows_spec.1 [⟨"", "2025-06-30", some 7⟩] 5 "2025-01-01" 240
      (by decide) (by decide),
   (normalizeLoanRateRows_spec.2.1 [⟨"2025-06-01", "2025-12-31", some 7⟩] 5
      "2025-01-01" 240 (by decide)).1⟩

end Vapex
